import Mathlib

/-!
Verification development for the smartmeter repository (mt174.py).

The file shallowly embeds the pieces of mt174.py that the claims are about:

* `MT174.read` — the serial protocol decoder (class MT174).  The serial
  channel is modelled as the identification line (a list of byte values)
  followed by the sequence of results of the subsequent single-byte
  `mt174.read()` calls: `some b` is a one-character read of byte `b`,
  `none` is a zero-length read (timeout).  Reads past the end of the
  listed sequence are zero-length reads.  Python exceptions become an
  explicit error type.
* `Processor.extract` — the line extractor, including a faithful
  backtracking model of the Python 2 regular expression
  (?:\d\-\d:)?(\S+\.\S+\.\d+)(?:\*255)?\((.+)\) used with re.match,
  and of str.split() on whitespace.
* `Mqtt.process` — the rate/differencing logic of MqttProcessor.process,
  modelled over the parsed readings (timestamps and index values as
  rationals standing in for Python floats); external publications are
  recorded as an explicit event list.
* `Scheduler.execute` / `Scheduler.cycleStep` — the dispatch loop and the
  timing of Scheduler.run, with wall-clock time modelled as rationals,
  sleep(t) advancing time by exactly t, and the duration of each EXECUTE
  given by an oracle.
-/

namespace MT174

/-- Failure outcomes of `MT174.read` in mt174.py.  The first five model the
`raise Exception(...)` statements of the source (line numbers in the running
text); `ordEmpty` models the Python `TypeError` raised by `ord("")` when the
block-check character read returns a zero-length string (no explicit guard
exists at that read in the source). -/
inductive Err where
  | emptyIdent : Err
  | noIdentification : Err
  | identTooShort : Err
  | emptyData : Err
  | checksum : Err
  | ordEmpty : Err
deriving DecidableEq, Repr

/-- Start-of-text sentinel `MT174.STX = '\x02'`. -/
def STX : Nat := 2

/-- End-of-text sentinel `MT174.ETX = '\x03'`. -/
def ETX : Nat := 3

/-- End-of-data-block marker `'!'`. -/
def EOB : Nat := 33

/-- First while loop of `MT174.read`:
`while x != '!': BCC ^= ord(x); datablock += x; x = read(); if empty: raise`.
Arguments: remaining channel reads, current byte `x`, accumulated `BCC`,
accumulated `datablock`.  Returns the final `x` (the marker), the BCC, the
datablock and the unconsumed reads. -/
def loop1 : List (Option Nat) → Nat → Nat → List Nat →
    Except Err (Nat × Nat × List Nat × List (Option Nat))
  | rest, x, bcc, db =>
    if x = EOB then Except.ok (x, bcc, db, rest)
    else
      match rest with
      | [] => Except.error Err.emptyData
      | none :: _ => Except.error Err.emptyData
      | some y :: r => loop1 r y (bcc ^^^ x) (db ++ [x])

/-- Second while loop of `MT174.read`:
`while x != ETX: BCC ^= ord(x); x = read(); if empty: raise`. -/
def loop2 : List (Option Nat) → Nat → Nat →
    Except Err (Nat × Nat × List (Option Nat))
  | rest, x, bcc =>
    if x = ETX then Except.ok (x, bcc, rest)
    else
      match rest with
      | [] => Except.error Err.emptyData
      | none :: _ => Except.error Err.emptyData
      | some y :: r => loop2 r y (bcc ^^^ x)

/-- The body of the `if mt174.read() == MT174.STX:` branch of `MT174.read`:
read the first data byte (guarded against a zero-length read), run the two
accumulation loops, XOR the ETX into the BCC, then read the transmitted
block-check character and compare.  Note that the final read has no
zero-length guard in the source: `ord("")` raises a TypeError, modelled as
`Err.ordEmpty`. -/
def readBlock : List (Option Nat) → Except Err (List Nat)
  | [] => Except.error Err.emptyData
  | none :: _ => Except.error Err.emptyData
  | some x :: rest =>
    match loop1 rest x 0 [] with
    | Except.error e => Except.error e
    | Except.ok (x1, bcc1, db, r1) =>
      match loop2 r1 x1 bcc1 with
      | Except.error e => Except.error e
      | Except.ok (x2, bcc2, r2) =>
        match r2 with
        | [] => Except.error Err.ordEmpty
        | none :: _ => Except.error Err.ordEmpty
        | some c :: _ =>
          if bcc2 ^^^ x2 ≠ c then Except.error Err.checksum else Except.ok db

/-- Behaviour of `MT174.read` after the identification checks and the acknowledgment:
`datablock = ""; if mt174.read() == MT174.STX: ... ; return datablock`.
A first byte that is absent or differs from STX returns the empty block. -/
def postIdent : List (Option Nat) → Except Err (List Nat)
  | some b :: rest => if b = STX then readBlock rest else Except.ok []
  | _ => Except.ok []

/-- The function `MT174.read` of mt174.py.  `ident` is the byte sequence returned by
`mt174.readline()` for the identification reply (47 is `'/'`), `bytes`
the subsequent single-byte reads. -/
def read (ident : List Nat) (bytes : List (Option Nat)) : Except Err (List Nat) :=
  if ident.length = 0 then Except.error Err.emptyIdent
  else if ident.head? ≠ some 47 then Except.error Err.noIdentification
  else if ident.length < 7 then Except.error Err.identTooShort
  else postIdent bytes

/-- A valid identification reply: nonempty, starts with `'/'` (byte 47) and
has length at least 7. -/
def identOK (ident : List Nat) : Prop :=
  ident.head? = some 47 ∧ 7 ≤ ident.length

instance (ident : List Nat) : Decidable (identOK ident) := by
  unfold identOK; infer_instance

/-- Running XOR over a byte list, as accumulated by `BCC` in the source. -/
def xorList (l : List Nat) : Nat := l.foldl (fun a b => a ^^^ b) 0

/-- The block-check character belonging to a frame whose payload is
`payload` and whose bytes between `'!'` and ETX are `mid`: the XOR of every
byte from the first payload byte through the ETX inclusive. -/
def bccOf (payload mid : List Nat) : Nat :=
  xorList (payload ++ EOB :: (mid ++ [ETX]))

/-- A well-formed channel trace after the acknowledgment: STX, the payload
bytes, the `'!'` marker, the trailing bytes, ETX, and the transmitted check
character `chk`. -/
def goodTrace (payload mid : List Nat) (chk : Nat) : List (Option Nat) :=
  some STX :: (payload.map some ++ some EOB :: (mid.map some ++ [some ETX, some chk]))

end MT174

namespace Processor

/-- Python 2 `str` whitespace, as used both by `str.split()` and by the
regex classes `\s`/`\S`: space, tab, newline, carriage return, vertical
tab, form feed. -/
def isPySpace (c : Char) : Bool :=
  c = ' ' || c = '\t' || c = '\n' || c = '\r' || c = Char.ofNat 11 || c = Char.ofNat 12

/-- Python `str.split()` with no separator: split on runs of whitespace, dropping
empty tokens.  `acc` holds the current word reversed. -/
def wordsAux : List Char → List Char → List (List Char)
  | acc, [] => if acc.isEmpty then [] else [acc.reverse]
  | acc, c :: rest =>
    if isPySpace c then
      if acc.isEmpty then wordsAux [] rest else acc.reverse :: wordsAux [] rest
    else wordsAux (c :: acc) rest

/-- The `data.split()` call of the extractor. -/
def pysplit (s : List Char) : List (List Char) := wordsAux [] s

/-- All ways to match `\S+\.` at the start of the input, in the order a
backtracking regex engine tries them (greedy: longest `\S+` first).  Each
candidate is the text consumed by `\S+` together with the input remaining
after the literal dot.  `acc` is the (reversed) text consumed so far. -/
def dotSplits : List Char → List Char → List (List Char × List Char)
  | _, [] => []
  | acc, c :: rest =>
    if isPySpace c then []
    else
      dotSplits (c :: acc) rest ++
        (if c = '.' ∧ acc ≠ [] then [(acc.reverse, rest)] else [])

/-- All ways to match `\d+` at the start of the input, greedy order. -/
def digitSplits : List Char → List (List Char × List Char)
  | [] => []
  | c :: rest =>
    if c.isDigit then
      (digitSplits rest).map (fun p => (c :: p.1, p.2)) ++ [([c], rest)]
    else []

/-- Matching `(.+)\)` greedily: the group is everything before the last
`')'` that is reachable without crossing a newline (`.` does not match
newline).  Returns the group's characters. -/
def lastClose : List Char → Option (List Char)
  | [] => none
  | c :: rest =>
    if c = '\n' then none
    else
      match lastClose rest with
      | some g => some (c :: g)
      | none => if c = ')' then some [] else none

/-- Matching `\((.+)\)`: a literal `'('` followed by a nonempty greedy
group closed by `')'`; text after the last `')'` is ignored because the
pattern is used with `re.match` (no end anchor). -/
def matchParen : List Char → Option (List Char)
  | c :: rest =>
    if c = '(' then
      match lastClose rest with
      | some (d :: g) => some (d :: g)
      | _ => none
    else none
  | [] => none

/-- The literal `*255`: if the input starts with it, the remainder. -/
def tag255 : List Char → Option (List Char)
  | c1 :: c2 :: c3 :: c4 :: rest =>
    if c1 = '*' ∧ c2 = '2' ∧ c3 = '5' ∧ c4 = '5' then some rest else none
  | _ => none

/-- Matching `(?:\*255)?\((.+)\)`: the optional literal `*255` is tried
greedily (present first), with backtracking to the absent branch. -/
def matchTail (s : List Char) : Option (List Char) :=
  match tag255 s with
  | some rest =>
    match matchParen rest with
    | some v => some v
    | none => matchParen s
  | none => matchParen s

/-- Group 1 of the pattern: the text matched by `\S+\.\S+\.\d+`. -/
def mkCode (a b d : List Char) : String := String.mk (a ++ '.' :: (b ++ '.' :: d))

/-- Matching `\d+(?:\*255)?\((.+)\)` after the two dotted segments
`pre1`/`pre2`: try the greedy `\d+` candidates in order. -/
def tryDigits (pre1 pre2 : List Char) (s : List Char) : Option (String × String) :=
  (digitSplits s).findSome? fun p3 =>
    match matchTail p3.2 with
    | some v => some (mkCode pre1 pre2 p3.1, String.mk v)
    | none => none

/-- Matching `\S+\.\d+(?:\*255)?\((.+)\)` after the first segment `pre1`:
try the greedy `\S+\.` candidates in order. -/
def trySeg2 (pre1 : List Char) (s : List Char) : Option (String × String) :=
  (dotSplits [] s).findSome? fun p2 => tryDigits pre1 p2.1 p2.2

/-- Matching `(\S+\.\S+\.\d+)(?:\*255)?\((.+)\)` at the start of the input,
with the backtracking order of the Python engine: enumerate the greedy
split candidates for each quantified piece, first success wins.  Returns
(group 1, group 2). -/
def matchCode (s : List Char) : Option (String × String) :=
  (dotSplits [] s).findSome? fun p1 => trySeg2 p1.1 p1.2

/-- The match `Processor.REGEX.match(line)` with its two groups:
the full pattern `(?:\d\-\d:)?(\S+\.\S+\.\d+)(?:\*255)?\((.+)\)`.
The optional group prefix is tried greedily (present first). -/
def matchLine (s : List Char) : Option (String × String) :=
  match s with
  | g1 :: h :: g2 :: k :: rest =>
    if g1.isDigit ∧ h = '-' ∧ g2.isDigit ∧ k = ':' then
      match matchCode rest with
      | some r => some r
      | none => matchCode s
    else matchCode s
  | _ => matchCode s

/-- One iteration of the extraction loop: `d[match.group(1)] = match.group(2)`
for a matching line, no change otherwise.  The dictionary is modelled by its
lookup function. -/
def update (m : String → Option String) (t : List Char) : String → Option String :=
  match matchLine t with
  | some kv => fun q => if q = kv.1 then some kv.2 else m q
  | none => m

/-- The extraction fold over a token list. -/
def extractTokens (ts : List (List Char)) : String → Option String :=
  ts.foldl update (fun _ => none)

/-- The function `Processor.extract(data)`: split on whitespace, match each line,
store `code → value` (later lines overwrite earlier ones, as Python dict
assignment does). -/
def extract (data : String) : String → Option String :=
  extractTokens (pysplit data.data)

end Processor

namespace Mqtt

/-- One external effect of `MqttProcessor.process`: a rate published to
`current/<key>`, an index published to `index/<key>`, the power-down
counter published to `powerdown/counter`, or the
`logging.error("Interval too long…")` report. -/
inductive PubEvent where
  | rate (key : String) (t : ℚ) (v : ℚ) : PubEvent
  | index (key : String) (t : ℚ) (v : ℚ) : PubEvent
  | powerdown (t : ℚ) (v : ℤ) : PubEvent
  | intervalError : PubEvent
deriving DecidableEq, Repr

/-- The constant `MqttProcessor.MARGIN_PERCENT = 0.5`. -/
def MARGIN_PERCENT : ℚ := 1/2

/-- The bound `self.__interval = interval + interval * MqttProcessor.MARGIN_PERCENT`
from `MqttProcessor.__init__`: the tolerance bound on the elapsed time. -/
def tolerance (interval : ℚ) : ℚ := interval + interval * MARGIN_PERCENT

/-- The field `self.__last = [0, (0,0,0)]`: the single retained reading
(timestamp, index values), modelled with rationals for Python floats. -/
structure State where
  lastT : ℚ
  lastIdx : List ℚ
deriving DecidableEq, Repr

/-- The initial retained state of `MqttProcessor.__init__`. -/
def init : State := ⟨0, [0, 0, 0]⟩

/-- The published key names `("total", "tariff1", "tariff2")`. -/
def names : List String := ["total", "tariff1", "tariff2"]

/-- The method `MqttProcessor.process(timestamp, data)`, modelled over the parsed
readings: `index` stands for the float values extracted for the EDIS codes
1.8.0/1.8.1/1.8.2 and `powerdownCounter` for `int(d["C.7.0"])` (the
extraction and float parsing are upstream of this claim's logic).  External
`mosquitto_pub` calls and the error log become the returned event list.
Note the source executes `self.__last = current` unconditionally at the end
of `process`, in the rejected-interval case as well. -/
def process (tol : ℚ) (st : State) (timestamp : ℚ) (index : List ℚ)
    (powerdownCounter : ℤ) : State × List PubEvent :=
  let rateEvents :=
    if st.lastT ≠ 0 then
      let itv := timestamp - st.lastT
      if itv < tol then
        let values := (index.zip st.lastIdx).map (fun p => (p.1 - p.2) * 3600 / itv)
        (names.zip values).map (fun p => PubEvent.rate p.1 timestamp p.2)
      else [PubEvent.intervalError]
    else []
  let indexEvents := (names.zip index).map (fun p => PubEvent.index p.1 timestamp p.2)
  (⟨timestamp, index⟩,
    rateEvents ++ indexEvents ++ [PubEvent.powerdown timestamp powerdownCounter])

end Mqtt

namespace Scheduler

/-- The constant `Scheduler.SLEEP_TIME = 0.1`, the wait-loop tick. -/
def SLEEP_TIME : ℚ := 1/10

/-- The method `Scheduler.execute(timestamp)`: call the meter reader; on failure log
and invoke no sink; on success invoke every registered sink in order inside
an individual try/except that catches and logs ordinary exceptions and
continues with the next sink.  A sink is modelled by what its `process`
does when called: `p t d = true` means it raises an (ordinary, caught)
exception.  The result records each invocation's `(timestamp, data)`
arguments and its caught outcome.  (`KeyboardInterrupt`, the asynchronous
cancellation signal, is outside this embedding.) -/
def execute (readResult : Except MT174.Err String)
    (sinks : List (ℚ → String → Bool)) (timestamp : ℚ) :
    List ((ℚ × String) × Bool) :=
  match readResult with
  | Except.error _ => []
  | Except.ok d => sinks.map (fun p => ((timestamp, d), p timestamp d))

/-- The state of `Scheduler.run` at the top of the wait loop: `start` is
the recorded start time of the previous cycle (`start = 0` before the first
cycle), `now` the current wall-clock time. -/
structure RunState where
  start : ℚ
  now : ℚ
deriving DecidableEq, Repr

/-- The number of `time.sleep(tick)` calls performed by
`while (time.time() - start) < interval: time.sleep(SLEEP_TIME)` when
entered with `gap = now - start`, in a model where each sleep advances the
clock by exactly `tick`: zero when the interval has already elapsed,
otherwise the least `k` with `gap + k * tick ≥ interval`. -/
def ticksNeeded (interval tick gap : ℚ) : ℕ :=
  if 0 < tick ∧ gap < interval then (⌈(interval - gap) / tick⌉).toNat else 0

/-- One iteration of the `while True` loop of `Scheduler.run`: run the wait
loop, record `start = time.time()` (the instant the wait condition first
fails), then `self.execute(start)`, whose wall-clock duration is `dur`. -/
def cycleStep (interval tick dur : ℚ) (s : RunState) : RunState :=
  let fire := s.now + (ticksNeeded interval tick (s.now - s.start) : ℚ) * tick
  ⟨fire, fire + dur⟩

/-- The trace of `Scheduler.run`: the state at the top of the wait loop
before the `(n+1)`-st EXECUTE, starting from `start = 0` at wall-clock time
`t0`, the `i`-th EXECUTE lasting `durs i`. -/
def runTrace (interval t0 : ℚ) (durs : ℕ → ℚ) : ℕ → RunState
  | 0 => ⟨0, t0⟩
  | n + 1 => cycleStep interval SLEEP_TIME (durs n) (runTrace interval t0 durs n)

end Scheduler

namespace MT174

theorem foldl_xor (l : List Nat) : ∀ i : Nat,
    l.foldl (fun a b => a ^^^ b) i = i ^^^ xorList l := by
  induction l with
  | nil => intro i; simp [xorList]
  | cons a l ih =>
    intro i
    simp only [List.foldl_cons, xorList] at *
    rw [ih (i ^^^ a), ih (0 ^^^ a), Nat.zero_xor, Nat.xor_assoc]

theorem xorList_cons (a : Nat) (l : List Nat) :
    xorList (a :: l) = a ^^^ xorList l := by
  show List.foldl _ (0 ^^^ a) l = _
  rw [foldl_xor, Nat.zero_xor]

theorem xorList_append (l₁ l₂ : List Nat) :
    xorList (l₁ ++ l₂) = xorList l₁ ^^^ xorList l₂ := by
  induction l₁ with
  | nil => simp [xorList]
  | cons a l ih =>
    rw [List.cons_append, xorList_cons, xorList_cons, ih, Nat.xor_assoc]

theorem loop1_eob (rest : List (Option Nat)) (bcc : Nat) (db : List Nat) :
    loop1 rest EOB bcc db = Except.ok (EOB, bcc, db, rest) := by
  rw [loop1.eq_def]
  simp

theorem loop2_etx (rest : List (Option Nat)) (bcc : Nat) :
    loop2 rest ETX bcc = Except.ok (ETX, bcc, rest) := by
  rw [loop2.eq_def]
  simp

theorem loop1_run (p : List Nat) (hp : ∀ b ∈ p, b ≠ EOB) :
    ∀ (x bcc : Nat) (db : List Nat) (rest : List (Option Nat)), x ≠ EOB →
    loop1 (p.map some ++ some EOB :: rest) x bcc db =
      Except.ok (EOB, bcc ^^^ xorList (x :: p), db ++ x :: p, rest) := by
  induction p with
  | nil =>
    intro x bcc db rest hx
    rw [List.map_nil, List.nil_append, loop1]
    rw [if_neg hx]
    simp [loop1_eob, xorList_cons, xorList]
  | cons b p ih =>
    intro x bcc db rest hx
    rw [List.map_cons, List.cons_append, loop1]
    rw [if_neg hx]
    show loop1 (p.map some ++ some EOB :: rest) b (bcc ^^^ x) (db ++ [x]) = _
    rw [ih (fun c hc => hp c (List.mem_cons_of_mem b hc)) b (bcc ^^^ x) (db ++ [x]) rest
        (hp b (List.mem_cons_self b p))]
    simp [xorList_cons, Nat.xor_assoc]

theorem loop2_run (m : List Nat) (hm : ∀ b ∈ m, b ≠ ETX) :
    ∀ (x bcc : Nat) (rest : List (Option Nat)), x ≠ ETX →
    loop2 (m.map some ++ some ETX :: rest) x bcc =
      Except.ok (ETX, bcc ^^^ xorList (x :: m), rest) := by
  induction m with
  | nil =>
    intro x bcc rest hx
    rw [List.map_nil, List.nil_append, loop2]
    rw [if_neg hx]
    simp [loop2_etx, xorList_cons, xorList]
  | cons b m ih =>
    intro x bcc rest hx
    rw [List.map_cons, List.cons_append, loop2]
    rw [if_neg hx]
    show loop2 (m.map some ++ some ETX :: rest) b (bcc ^^^ x) = _
    rw [ih (fun c hc => hm c (List.mem_cons_of_mem b hc)) b (bcc ^^^ x) rest
        (hm b (List.mem_cons_self b m))]
    simp [xorList_cons, Nat.xor_assoc]

theorem loop1_trunc (p : List Nat) (hp : ∀ b ∈ p, b ≠ EOB) :
    ∀ (x bcc : Nat) (db : List Nat), x ≠ EOB →
    loop1 (p.map some ++ [none]) x bcc db = Except.error Err.emptyData := by
  induction p with
  | nil =>
    intro x bcc db hx
    rw [List.map_nil, List.nil_append, loop1]
    rw [if_neg hx]
  | cons b p ih =>
    intro x bcc db hx
    rw [List.map_cons, List.cons_append, loop1]
    rw [if_neg hx]
    show loop1 (p.map some ++ [none]) b (bcc ^^^ x) (db ++ [x]) = _
    exact ih (fun c hc => hp c (List.mem_cons_of_mem b hc)) b (bcc ^^^ x) (db ++ [x])
      (hp b (List.mem_cons_self b p))

theorem loop2_trunc (m : List Nat) (hm : ∀ b ∈ m, b ≠ ETX) :
    ∀ (x bcc : Nat), x ≠ ETX →
    loop2 (m.map some ++ [none]) x bcc = Except.error Err.emptyData := by
  induction m with
  | nil =>
    intro x bcc hx
    rw [List.map_nil, List.nil_append, loop2]
    rw [if_neg hx]
  | cons b m ih =>
    intro x bcc hx
    rw [List.map_cons, List.cons_append, loop2]
    rw [if_neg hx]
    show loop2 (m.map some ++ [none]) b (bcc ^^^ x) = _
    exact ih (fun c hc => hm c (List.mem_cons_of_mem b hc)) b (bcc ^^^ x)
      (hm b (List.mem_cons_self b m))

theorem loop1_start (p : List Nat) (hp : ∀ b ∈ p, b ≠ EOB)
    (rest : List (Option Nat)) :
    readBlock (p.map some ++ some EOB :: rest) =
      match loop2 rest EOB (xorList p) with
      | Except.error e => Except.error e
      | Except.ok (x2, bcc2, r2) =>
        match r2 with
        | [] => Except.error Err.ordEmpty
        | none :: _ => Except.error Err.ordEmpty
        | some c :: _ =>
          if bcc2 ^^^ x2 ≠ c then Except.error Err.checksum else Except.ok p := by
  cases p with
  | nil =>
    rw [List.map_nil, List.nil_append, readBlock]
    rw [loop1_eob]
    simp [xorList]
  | cons a p =>
    rw [List.map_cons, List.cons_append, readBlock]
    rw [loop1_run p (fun c hc => hp c (List.mem_cons_of_mem a hc)) a 0 []
        rest (hp a (List.mem_cons_self a p))]
    simp [Nat.zero_xor, xorList_cons]

theorem bcc_assemble (payload mid : List Nat) :
    (xorList payload ^^^ xorList (EOB :: mid)) ^^^ ETX = bccOf payload mid := by
  rw [bccOf, xorList_append, xorList_cons, xorList_cons, xorList_append]
  simp [xorList, Nat.xor_assoc]

theorem readBlock_good (payload mid : List Nat) (chk : Nat)
    (hp : ∀ b ∈ payload, b ≠ EOB) (hm : ∀ b ∈ mid, b ≠ ETX) :
    readBlock (payload.map some ++ some EOB :: (mid.map some ++ [some ETX, some chk])) =
      if bccOf payload mid ≠ chk then Except.error Err.checksum
      else Except.ok payload := by
  rw [loop1_start payload hp]
  rw [loop2_run mid hm EOB (xorList payload) [some chk] (by decide)]
  simp only [← Nat.xor_assoc]
  rw [bcc_assemble payload mid]

theorem read_identOK (ident : List Nat) (bytes : List (Option Nat))
    (hid : identOK ident) : read ident bytes = postIdent bytes := by
  obtain ⟨h1, h2⟩ := hid
  have hne : ident.length ≠ 0 := by
    cases ident with
    | nil => simp at h1
    | cons a l => simp
  have h7 : ¬ ident.length < 7 := by omega
  rw [read, if_neg hne, if_neg (by simp [h1]), if_neg h7]

end MT174

theorem Processor.extractTokens_append (ts us : List (List Char)) :
    Processor.extractTokens (ts ++ us) =
      us.foldl Processor.update (Processor.extractTokens ts) := by
  rw [Processor.extractTokens, List.foldl_append]
  rfl

theorem Processor.update_store (m : String → Option String) (t : List Char)
    (c v : String) (h : Processor.matchLine t = some (c, v)) :
    Processor.update m t c = some v := by
  simp [Processor.update, h]

theorem Processor.update_skip (m : String → Option String) (t : List Char)
    (h : Processor.matchLine t = none) : Processor.update m t = m := by
  simp [Processor.update, h]

theorem Processor.foldl_update_skip (c : String) :
    ∀ (post : List (List Char)),
    (∀ u ∈ post, ∀ w, Processor.matchLine u ≠ some (c, w)) →
    ∀ m, (post.foldl Processor.update m) c = m c := by
  intro post
  induction post with
  | nil => intro _ m; rfl
  | cons u us ih =>
    intro h m
    rw [List.foldl_cons]
    rw [ih (fun u' hu' => h u' (List.mem_cons_of_mem u hu')) (Processor.update m u)]
    cases hml : Processor.matchLine u with
    | none => rw [Processor.update_skip m u hml]
    | some kv =>
      have hk : c ≠ kv.1 := fun hc =>
        h u (List.mem_cons_self u us) kv.2 (by rw [hml, hc])
      simp only [Processor.update, hml]
      rw [if_neg hk]

namespace Processor

theorem digit_clean (c : Char) (h : c.isDigit = true) :
    isPySpace c = false ∧ c ≠ '.' := by
  have h0 : ('0' ≤ c ∧ c ≤ '9') := by
    simpa [Char.isDigit, Bool.and_eq_true, decide_eq_true_eq] using h
  constructor
  · simp only [isPySpace, Bool.or_eq_false_iff, decide_eq_false_iff_not]
    refine ⟨⟨⟨⟨⟨?_, ?_⟩, ?_⟩, ?_⟩, ?_⟩, ?_⟩ <;> (rintro rfl; exact absurd h0.1 (by decide))
  · rintro rfl; exact absurd h0.1 (by decide)

theorem clean_of_tag (tag : List Char) (htag : tag = [] ∨ tag = ['*', '2', '5', '5']) :
    ∀ c ∈ tag, isPySpace c = false ∧ c ≠ '.' := by
  rcases htag with rfl | rfl
  · intro c hc; simp at hc
  · intro c hc
    rcases List.mem_cons.mp hc with rfl | hc
    · exact ⟨by decide, by decide⟩
    rcases List.mem_cons.mp hc with rfl | hc
    · exact ⟨by decide, by decide⟩
    rcases List.mem_cons.mp hc with rfl | hc
    · exact ⟨by decide, by decide⟩
    rcases List.mem_cons.mp hc with rfl | hc
    · exact ⟨by decide, by decide⟩
    · simp at hc

theorem dotSplits_through (u : List Char)
    (hu : ∀ c ∈ u, isPySpace c = false ∧ c ≠ '.') :
    ∀ (acc w : List Char), dotSplits acc (u ++ w) = dotSplits (u.reverse ++ acc) w := by
  induction u with
  | nil => intro acc w; simp
  | cons c u ih =>
    intro acc w
    obtain ⟨hsp, hdot⟩ := hu c (List.mem_cons_self c u)
    rw [List.cons_append, dotSplits]
    rw [if_neg (by simp [hsp])]
    rw [if_neg (fun hand => hdot hand.1)]
    rw [List.append_nil]
    rw [ih (fun c' hc' => hu c' (List.mem_cons_of_mem c hc')) (c :: acc) w]
    simp [List.append_assoc]

theorem dotSplits_clean (w : List Char)
    (hw : ∀ c ∈ w, isPySpace c = false ∧ c ≠ '.') :
    ∀ acc, dotSplits acc w = [] := by
  induction w with
  | nil => intro acc; rfl
  | cons c w ih =>
    intro acc
    obtain ⟨hsp, hdot⟩ := hw c (List.mem_cons_self c w)
    rw [dotSplits]
    rw [if_neg (by simp [hsp])]
    rw [if_neg (fun hand => hdot hand.1)]
    rw [List.append_nil]
    exact ih (fun c' hc' => hw c' (List.mem_cons_of_mem c hc')) _

theorem dotSplits_dot (acc : List Char) (hacc : acc ≠ []) (w : List Char) :
    dotSplits acc ('.' :: w) = dotSplits ('.' :: acc) w ++ [(acc.reverse, w)] := by
  rw [dotSplits]
  rw [if_neg (by decide)]
  rw [if_pos ⟨rfl, hacc⟩]

theorem dotSplits_two (s1 s2 w : List Char)
    (h1e : s1 ≠ []) (h1 : ∀ c ∈ s1, isPySpace c = false ∧ c ≠ '.')
    (_h2e : s2 ≠ []) (h2 : ∀ c ∈ s2, isPySpace c = false ∧ c ≠ '.')
    (hw : ∀ c ∈ w, isPySpace c = false ∧ c ≠ '.') :
    dotSplits [] (s1 ++ '.' :: (s2 ++ '.' :: w)) =
      [(s1 ++ '.' :: s2, w), (s1, s2 ++ '.' :: w)] := by
  rw [dotSplits_through s1 h1 [] ('.' :: (s2 ++ '.' :: w))]
  rw [List.append_nil]
  rw [dotSplits_dot s1.reverse (by simpa using h1e) (s2 ++ '.' :: w)]
  rw [dotSplits_through s2 h2 ('.' :: s1.reverse) ('.' :: w)]
  rw [dotSplits_dot (s2.reverse ++ '.' :: s1.reverse) (by simp) w]
  rw [dotSplits_clean w hw]
  simp [List.reverse_append]

end Processor

namespace Processor

theorem digitSplits_clean (w : List Char)
    (hw : ∀ d w', w = d :: w' → d.isDigit = false) :
    digitSplits w = [] := by
  cases w with
  | nil => rfl
  | cons d w' =>
    rw [digitSplits]
    rw [if_neg (by simp [hw d w' rfl])]

theorem digitSplits_digits (s3 : List Char) (h3 : ∀ c ∈ s3, c.isDigit = true) :
    ∀ (c : Char), c.isDigit = true →
    ∀ w, (∀ d w', w = d :: w' → d.isDigit = false) →
    ∃ rest, digitSplits (c :: (s3 ++ w)) = (c :: s3, w) :: rest := by
  induction s3 with
  | nil =>
    intro c hc w hw
    refine ⟨[], ?_⟩
    rw [List.nil_append, digitSplits, if_pos (by simp [hc])]
    rw [digitSplits_clean w hw]
    rfl
  | cons b s3 ih =>
    intro c hc w hw
    rw [List.cons_append, digitSplits, if_pos (by simp [hc])]
    obtain ⟨rest, hrest⟩ := ih (fun c' h' => h3 c' (List.mem_cons_of_mem b h')) b
      (h3 b (List.mem_cons_self b s3)) w hw
    rw [hrest]
    refine ⟨rest.map (fun p => (c :: p.1, p.2)) ++ [([c], b :: (s3 ++ w))], ?_⟩
    simp

theorem lastClose_closed (v : List Char) (hv : ∀ c ∈ v, c ≠ '\n' ∧ c ≠ ')') :
    lastClose (v ++ [')']) = some v := by
  induction v with
  | nil => decide
  | cons c v ih =>
    obtain ⟨hn, hp⟩ := hv c (List.mem_cons_self c v)
    rw [List.cons_append, lastClose]
    rw [if_neg hn]
    rw [ih (fun c' h' => hv c' (List.mem_cons_of_mem c h'))]

theorem matchParen_closed (v : List Char) (hve : v ≠ [])
    (hv : ∀ c ∈ v, c ≠ '\n' ∧ c ≠ ')') :
    matchParen ('(' :: (v ++ [')'])) = some v := by
  rw [matchParen]
  rw [if_pos rfl]
  rw [lastClose_closed v hv]
  cases v with
  | nil => exact absurd rfl hve
  | cons c v => rfl

theorem tag255_paren (rest : List Char) : tag255 ('(' :: rest) = none := by
  cases rest with
  | nil => rfl
  | cons c2 rest' =>
    cases rest' with
    | nil => rfl
    | cons c3 rest'' =>
      cases rest'' with
      | nil => rfl
      | cons c4 w =>
        rw [tag255]
        rw [if_neg (fun hand => absurd hand.1 (by decide))]

theorem tag255_star (rest : List Char) :
    tag255 ('*' :: '2' :: '5' :: '5' :: rest) = some rest := by
  rw [tag255]
  rw [if_pos ⟨rfl, rfl, rfl, rfl⟩]

theorem matchTail_closed (tag v : List Char)
    (htag : tag = [] ∨ tag = ['*', '2', '5', '5'])
    (hve : v ≠ []) (hv : ∀ c ∈ v, c ≠ '\n' ∧ c ≠ ')') :
    matchTail (tag ++ '(' :: (v ++ [')'])) = some v := by
  rcases htag with rfl | rfl
  · rw [List.nil_append, matchTail]
    rw [tag255_paren]
    exact matchParen_closed v hve hv
  · rw [matchTail]
    rw [show ['*', '2', '5', '5'] ++ '(' :: (v ++ [')'])
        = '*' :: '2' :: '5' :: '5' :: ('(' :: (v ++ [')'])) from rfl]
    rw [tag255_star]
    show (match matchParen ('(' :: (v ++ [')'])) with
      | some w => some w
      | none => matchParen ('*' :: '2' :: '5' :: '5' :: '(' :: (v ++ [')']))) = some v
    rw [matchParen_closed v hve hv]

end Processor

namespace Processor

theorem findSome?_head (f : α → Option β) (a : α) (l : List α) (b : β)
    (ha : f a = some b) : List.findSome? f (a :: l) = some b := by
  rw [List.findSome?_cons, ha]

theorem findSome?_single (f : α → Option β) (a : α) :
    List.findSome? f [a] = f a := by
  rw [List.findSome?_cons]
  cases hb : f a <;> simp [hb]

theorem findSome?_pair (f : α → Option β) (a b : α) (ha : f a = none) :
    List.findSome? f [a, b] = f b := by
  rw [List.findSome?_cons, ha]
  exact findSome?_single f b

theorem matchCode_good (s1 s2 s3 tag v : List Char)
    (h1e : s1 ≠ []) (h1 : ∀ c ∈ s1, isPySpace c = false ∧ c ≠ '.')
    (h2e : s2 ≠ []) (h2 : ∀ c ∈ s2, isPySpace c = false ∧ c ≠ '.')
    (h3e : s3 ≠ []) (h3 : ∀ c ∈ s3, c.isDigit = true)
    (htag : tag = [] ∨ tag = ['*', '2', '5', '5'])
    (hve : v ≠ []) (hv : ∀ c ∈ v, isPySpace c = false ∧ c ≠ '.' ∧ c ≠ ')') :
    matchCode (s1 ++ '.' :: (s2 ++ '.' :: (s3 ++ (tag ++ '(' :: (v ++ [')']))))) =
      some (mkCode s1 s2 s3, String.mk v) := by
  have hnl : ∀ c ∈ v, c ≠ '\n' ∧ c ≠ ')' := by
    intro c hc
    refine ⟨?_, (hv c hc).2.2⟩
    intro heq
    subst heq
    exact absurd (hv _ hc).1 (by decide)
  have hw : ∀ c ∈ s3 ++ (tag ++ '(' :: (v ++ [')'])), isPySpace c = false ∧ c ≠ '.' := by
    intro c hc
    rcases List.mem_append.mp hc with hc | hc
    · exact digit_clean c (h3 c hc)
    rcases List.mem_append.mp hc with hc | hc
    · exact clean_of_tag tag htag c hc
    rcases List.mem_cons.mp hc with rfl | hc
    · exact ⟨by decide, by decide⟩
    rcases List.mem_append.mp hc with hc | hc
    · exact ⟨(hv c hc).1, (hv c hc).2.1⟩
    · rw [List.mem_singleton.mp hc]
      exact ⟨by decide, by decide⟩
  have hwt : ∀ d w', tag ++ '(' :: (v ++ [')']) = d :: w' → d.isDigit = false := by
    rcases htag with rfl | rfl
    · intro d w' h
      injection h with h1 h2
      rw [← h1]
      decide
    · intro d w' h
      injection h with h1 h2
      rw [← h1]
      decide
  rw [matchCode]
  rw [dotSplits_two s1 s2 _ h1e h1 h2e h2 hw]
  rw [findSome?_pair _ _ _ (by
    show trySeg2 (s1 ++ '.' :: s2) (s3 ++ (tag ++ '(' :: (v ++ [')']))) = none
    rw [trySeg2, dotSplits_clean _ hw]
    rfl)]
  show trySeg2 s1 (s2 ++ '.' :: (s3 ++ (tag ++ '(' :: (v ++ [')'])))) =
    some (mkCode s1 s2 s3, String.mk v)
  have hone : dotSplits [] (s2 ++ '.' :: (s3 ++ (tag ++ '(' :: (v ++ [')'])))) =
      [(s2, s3 ++ (tag ++ '(' :: (v ++ [')'])))] := by
    rw [dotSplits_through s2 h2 [] ('.' :: (s3 ++ (tag ++ '(' :: (v ++ [')']))))]
    rw [List.append_nil]
    rw [dotSplits_dot s2.reverse (by simpa using h2e) _]
    rw [dotSplits_clean _ hw]
    simp
  rw [trySeg2, hone, findSome?_single]
  show tryDigits s1 s2 (s3 ++ (tag ++ '(' :: (v ++ [')']))) =
    some (mkCode s1 s2 s3, String.mk v)
  cases s3 with
  | nil => exact absurd rfl h3e
  | cons c3 s3t =>
    obtain ⟨rest, hds⟩ := digitSplits_digits s3t
      (fun c' h' => h3 c' (List.mem_cons_of_mem c3 h')) c3
      (h3 c3 (List.mem_cons_self c3 s3t)) (tag ++ '(' :: (v ++ [')'])) hwt
    rw [tryDigits, List.cons_append, hds]
    exact findSome?_head _ _ _ _ (by
      show (match matchTail (tag ++ '(' :: (v ++ [')'])) with
        | some vv => some (mkCode s1 s2 (c3 :: s3t), String.mk vv)
        | none => none) = some (mkCode s1 s2 (c3 :: s3t), String.mk v)
      rw [matchTail_closed tag v htag hve hnl])

end Processor

namespace Processor

theorem matchLine_four (a b c d : Char) (r : List Char)
    (h : ¬(a.isDigit ∧ b = '-' ∧ c.isDigit ∧ d = ':')) :
    matchLine (a :: b :: c :: d :: r) = matchCode (a :: b :: c :: d :: r) := by
  rw [matchLine, if_neg h]

theorem matchLine_no_pre (s : List Char)
    (h : ∀ a b c d r, s = a :: b :: c :: d :: r →
      ¬(a.isDigit ∧ b = '-' ∧ c.isDigit ∧ d = ':')) :
    matchLine s = matchCode s := by
  match s with
  | [] => rfl
  | [a] => rfl
  | [a, b] => rfl
  | [a, b, c] => rfl
  | a :: b :: c :: d :: r => exact matchLine_four a b c d r (h a b c d r rfl)

theorem matchLine_with_pre (g1 g2 : Char) (hg1 : g1.isDigit = true)
    (hg2 : g2.isDigit = true) (rest : List Char) (res : String × String)
    (hres : matchCode rest = some res) :
    matchLine (g1 :: '-' :: g2 :: ':' :: rest) = some res := by
  rw [matchLine, if_pos ⟨by simp [hg1], rfl, by simp [hg2], rfl⟩, hres]

theorem core_matchLine (s1 s2 w : List Char)
    (h1e : s1 ≠ []) (h2e : s2 ≠ [])
    (h1 : ∀ c ∈ s1, c ≠ ':') (h2 : ∀ c ∈ s2, c ≠ ':') :
    matchLine (s1 ++ '.' :: (s2 ++ '.' :: w)) =
      matchCode (s1 ++ '.' :: (s2 ++ '.' :: w)) := by
  apply matchLine_no_pre
  intro a b c d r heq hcond
  obtain ⟨-, hb, -, hd⟩ := hcond
  match s1, h1e with
  | [a1], _ =>
    rw [List.cons_append, List.nil_append] at heq
    injection heq with e1 heq
    injection heq with e2 heq
    exact absurd (hb ▸ e2) (by decide)
  | [a1, a2], _ =>
    rw [List.cons_append, List.cons_append, List.nil_append] at heq
    injection heq with e1 heq
    injection heq with e2 heq
    injection heq with e3 heq
    match s2, h2e with
    | b1 :: s2t, _ =>
      rw [List.cons_append] at heq
      injection heq with e4 heq
      exact absurd (hd ▸ e4) (h2 b1 (List.mem_cons_self b1 s2t))
  | [a1, a2, a3], _ =>
    rw [List.cons_append, List.cons_append, List.cons_append, List.nil_append] at heq
    injection heq with e1 heq
    injection heq with e2 heq
    injection heq with e3 heq
    injection heq with e4 heq
    exact absurd (hd ▸ e4) (by decide)
  | a1 :: a2 :: a3 :: a4 :: s1r, _ =>
    rw [List.cons_append, List.cons_append, List.cons_append, List.cons_append] at heq
    injection heq with e1 heq
    injection heq with e2 heq
    injection heq with e3 heq
    injection heq with e4 heq
    exact absurd (hd ▸ e4) (h1 a4 (by simp))

end Processor

/-- C1: for every channel trace whose identification reply is valid, whose
first byte after the acknowledgment is the STX sentinel, and whose frame
consists of the payload (free of the `'!'` marker), the marker, trailing
bytes (free of ETX), the ETX and a check character: if the check character
equals the XOR of every byte from the first payload byte through the ETX
inclusive then `MT174.read` returns exactly the accumulated payload, and for
any differing check character it fails with the checksum error and returns
no payload. -/
theorem C1_read_payload_and_checksum (ident payload mid : List Nat)
    (hid : MT174.identOK ident)
    (hp : ∀ b ∈ payload, b ≠ MT174.EOB) (hm : ∀ b ∈ mid, b ≠ MT174.ETX) :
    MT174.read ident (MT174.goodTrace payload mid (MT174.bccOf payload mid)) =
      Except.ok payload ∧
    ∀ chk, chk ≠ MT174.bccOf payload mid →
      MT174.read ident (MT174.goodTrace payload mid chk) =
        Except.error MT174.Err.checksum := by
  constructor
  · rw [MT174.read_identOK ident _ hid, MT174.goodTrace, MT174.postIdent,
        if_pos rfl, MT174.readBlock_good payload mid _ hp hm]
    simp
  · intro chk hchk
    rw [MT174.read_identOK ident _ hid, MT174.goodTrace, MT174.postIdent,
        if_pos rfl, MT174.readBlock_good payload mid _ hp hm]
    rw [if_pos (Ne.symm hchk)]

theorem C1_read_payload_and_checksum_witness :
    MT174.read [47, 73, 83, 75, 53, 77, 84]
        (MT174.goodTrace [65, 66] [13, 10] (MT174.bccOf [65, 66] [13, 10])) =
      Except.ok [65, 66] ∧
    MT174.read [47, 73, 83, 75, 53, 77, 84]
        (MT174.goodTrace [65, 66] [13, 10] 0) =
      Except.error MT174.Err.checksum := by
  have h := C1_read_payload_and_checksum [47, 73, 83, 75, 53, 77, 84]
    [65, 66] [13, 10] (by decide) (by decide) (by decide)
  exact ⟨h.1, h.2 0 (by decide)⟩

/-- C2 counterexample: a call of `MqttProcessor.process` with a retained
prior reading (timestamp 10 ≠ 0) and elapsed time 3600 s ≥ tolerance 90 s
(interval 60 s plus 50 % margin) reports the interval error, yet the
retained state afterwards holds the rejected current reading, not the
prior pair — contradicting the claim that it is not updated. -/
theorem C2_counterexample :
    (Mqtt.process (Mqtt.tolerance 60) ⟨10, [100, 100, 100]⟩ 3610 [101, 102, 103] 5).1 =
      (⟨3610, [101, 102, 103]⟩ : Mqtt.State) ∧
    (⟨3610, [101, 102, 103]⟩ : Mqtt.State) ≠ ⟨10, [100, 100, 100]⟩ ∧
    Mqtt.PubEvent.intervalError ∈
      (Mqtt.process (Mqtt.tolerance 60) ⟨10, [100, 100, 100]⟩ 3610 [101, 102, 103] 5).2 := by
  refine ⟨rfl, ?_, ?_⟩
  · intro h
    rw [Mqtt.State.mk.injEq] at h
    exact absurd h.1 (by norm_num)
  · have h1 : ((⟨10, [100, 100, 100]⟩ : Mqtt.State).lastT ≠ 0) := by norm_num
    have h2 : ¬ ((3610 : ℚ) - (⟨10, [100, 100, 100]⟩ : Mqtt.State).lastT <
        Mqtt.tolerance 60) := by
      norm_num [Mqtt.tolerance, Mqtt.MARGIN_PERCENT]
    simp only [Mqtt.process, if_pos h1, if_neg h2]
    simp

/-- C2, amended: for every call of `MqttProcessor.process` with a retained
prior reading (retained timestamp non-zero) and elapsed time not below the
tolerance, the rate computation is reported as an error and no rate is
published; however the retained state afterwards holds the current
(timestamp, index) pair — the source runs `self.__last = current`
unconditionally, so the rejected reading does replace the prior one. -/
theorem C2_interval_rejection (tol : ℚ) (st : Mqtt.State) (t : ℚ)
    (index : List ℚ) (pd : ℤ)
    (hlast : st.lastT ≠ 0) (hrej : ¬ (t - st.lastT < tol)) :
    Mqtt.PubEvent.intervalError ∈ (Mqtt.process tol st t index pd).2 ∧
    (∀ k tt vv, Mqtt.PubEvent.rate k tt vv ∉ (Mqtt.process tol st t index pd).2) ∧
    (Mqtt.process tol st t index pd).1 = ⟨t, index⟩ := by
  refine ⟨?_, ?_, rfl⟩
  · simp only [Mqtt.process, if_pos hlast, if_neg hrej]
    simp
  · intro k tt vv
    simp only [Mqtt.process, if_pos hlast, if_neg hrej]
    simp

theorem C2_interval_rejection_witness :
    Mqtt.PubEvent.intervalError ∈
      (Mqtt.process (Mqtt.tolerance 60) ⟨10, [100, 100, 100]⟩ 3610 [101, 102, 103] 5).2 ∧
    (∀ k tt vv, Mqtt.PubEvent.rate k tt vv ∉
      (Mqtt.process (Mqtt.tolerance 60) ⟨10, [100, 100, 100]⟩ 3610 [101, 102, 103] 5).2) ∧
    (Mqtt.process (Mqtt.tolerance 60) ⟨10, [100, 100, 100]⟩ 3610 [101, 102, 103] 5).1 =
      ⟨3610, [101, 102, 103]⟩ :=
  C2_interval_rejection (Mqtt.tolerance 60) ⟨10, [100, 100, 100]⟩ 3610 [101, 102, 103] 5
    (by norm_num) (by norm_num [Mqtt.tolerance, Mqtt.MARGIN_PERCENT])

/-- C3: in every scheduler cycle, if the meter read fails no sink is
invoked; if it succeeds, every registered sink is invoked in registration
order with the same `(timestamp, data)` arguments, and since each
invocation's arguments depend only on the position in the list — never on
the caught outcome of an earlier sink — a sink that raises does not change
what any later sink receives (the invocation-argument list is always
`length`-many copies of `(timestamp, data)`); the caught outcomes also do
not feed into `Scheduler.run`'s wait computation. -/
theorem C3_read_failure_and_sink_isolation (t : ℚ)
    (sinks : List (ℚ → String → Bool)) :
    (∀ e, Scheduler.execute (Except.error e) sinks t = []) ∧
    (∀ d, Scheduler.execute (Except.ok d) sinks t =
      sinks.map (fun p => ((t, d), p t d))) ∧
    (∀ d, (Scheduler.execute (Except.ok d) sinks t).map Prod.fst =
      List.replicate sinks.length (t, d)) := by
  refine ⟨fun e => rfl, fun d => rfl, fun d => ?_⟩
  show (sinks.map _).map _ = _
  rw [List.map_map]
  induction sinks with
  | nil => rfl
  | cons p ps ih =>
    simp only [List.map_cons, List.length_cons, List.replicate_succ]
    rw [ih]
    rfl

/-- C4: the wait window of `Scheduler.run` is measured from the recorded
start of the previous cycle.  (1) If the previous cycle's duration already
covers the interval, the next EXECUTE begins at the current instant with
zero sleep ticks.  (2) Otherwise the next EXECUTE fires at the first tick
instant at least `interval` after the previous recorded start.  (3) Over
three consecutive over-long cycles, each next EXECUTE fires exactly at the
completion instant of the previous one — one EXECUTE per completion, with
no accumulated backlog of skipped cycles. -/
theorem C4_wait_from_cycle_start_no_backlog (interval tick : ℚ)
    (htick : 0 < tick) (s : Scheduler.RunState) (dur : ℚ) :
    (interval ≤ s.now - s.start →
      Scheduler.ticksNeeded interval tick (s.now - s.start) = 0 ∧
      Scheduler.cycleStep interval tick dur s = ⟨s.now, s.now + dur⟩) ∧
    (s.now - s.start < interval →
      interval ≤ (Scheduler.cycleStep interval tick dur s).start - s.start ∧
      (Scheduler.cycleStep interval tick dur s).start - tick - s.start < interval) ∧
    (∀ d0 d1 d2 : ℚ, interval ≤ d0 → interval ≤ d1 → interval ≤ d2 →
      interval ≤ s.now - s.start →
      (Scheduler.cycleStep interval tick d0 s).start = s.now ∧
      (Scheduler.cycleStep interval tick d1
        (Scheduler.cycleStep interval tick d0 s)).start = s.now + d0 ∧
      (Scheduler.cycleStep interval tick d2 (Scheduler.cycleStep interval tick d1
        (Scheduler.cycleStep interval tick d0 s))).start = s.now + d0 + d1) := by
  have hzero : ∀ gap : ℚ, interval ≤ gap →
      Scheduler.ticksNeeded interval tick gap = 0 := by
    intro gap hgap
    rw [Scheduler.ticksNeeded, if_neg]
    rintro ⟨-, hlt⟩
    exact absurd hgap (not_le.mpr hlt)
  have hstep : ∀ d : ℚ, interval ≤ s.now - s.start →
      Scheduler.cycleStep interval tick d s = ⟨s.now, s.now + d⟩ := by
    intro d hgap
    rw [Scheduler.cycleStep]
    rw [hzero _ hgap]
    simp
  refine ⟨fun hgap => ⟨hzero _ hgap, hstep dur hgap⟩, ?_, ?_⟩
  · intro hgap
    set x : ℚ := (interval - (s.now - s.start)) / tick with hx
    have hxpos : 0 < x := div_pos (by linarith) htick
    have hcpos : (0 : ℤ) < ⌈x⌉ := Int.ceil_pos.mpr hxpos
    have hk : Scheduler.ticksNeeded interval tick (s.now - s.start) = (⌈x⌉).toNat := by
      rw [Scheduler.ticksNeeded, if_pos ⟨htick, by linarith⟩]
    have hcast : ((Scheduler.ticksNeeded interval tick (s.now - s.start) : ℕ) : ℚ)
        = ((⌈x⌉ : ℤ) : ℚ) := by
      rw [hk]
      exact_mod_cast Int.toNat_of_nonneg (le_of_lt hcpos)
    have hfire : (Scheduler.cycleStep interval tick dur s).start
        = s.now + ((⌈x⌉ : ℤ) : ℚ) * tick := by
      rw [Scheduler.cycleStep]
      show s.now + _ * tick = _
      rw [hcast]
    have hle : x ≤ ((⌈x⌉ : ℤ) : ℚ) := Int.le_ceil x
    have hlt : ((⌈x⌉ : ℤ) : ℚ) < x + 1 := by
      exact_mod_cast Int.ceil_lt_add_one x
    have h1 : interval - (s.now - s.start) ≤ ((⌈x⌉ : ℤ) : ℚ) * tick := by
      have := (div_le_iff₀ htick).mp hle
      linarith
    have h2 : (((⌈x⌉ : ℤ) : ℚ) - 1) * tick < interval - (s.now - s.start) := by
      have : ((⌈x⌉ : ℤ) : ℚ) - 1 < x := by linarith
      have := (lt_div_iff₀ htick).mp this
      linarith
    constructor
    · rw [hfire]; linarith
    · rw [hfire]; nlinarith
  · intro d0 d1 d2 h0 h1 h2 hgap
    have e0 := hstep d0 hgap
    have e1 : Scheduler.cycleStep interval tick d1 (Scheduler.cycleStep interval tick d0 s)
        = ⟨s.now + d0, s.now + d0 + d1⟩ := by
      rw [e0, Scheduler.cycleStep]
      rw [show (⟨s.now, s.now + d0⟩ : Scheduler.RunState).now -
          (⟨s.now, s.now + d0⟩ : Scheduler.RunState).start = d0 by
        show s.now + d0 - s.now = d0; ring]
      rw [hzero _ h0]
      show (⟨s.now + d0 + _ * tick, _⟩ : Scheduler.RunState) = _
      simp
    have e2 : Scheduler.cycleStep interval tick d2 (Scheduler.cycleStep interval tick d1
        (Scheduler.cycleStep interval tick d0 s)) = ⟨s.now + d0 + d1, s.now + d0 + d1 + d2⟩ := by
      rw [e1, Scheduler.cycleStep]
      rw [show (⟨s.now + d0, s.now + d0 + d1⟩ : Scheduler.RunState).now -
          (⟨s.now + d0, s.now + d0 + d1⟩ : Scheduler.RunState).start = d1 by
        show s.now + d0 + d1 - (s.now + d0) = d1; ring]
      rw [hzero _ h1]
      show (⟨s.now + d0 + d1 + _ * tick, _⟩ : Scheduler.RunState) = _
      simp
    exact ⟨by rw [e0], by rw [e1], by rw [e2]⟩

theorem C4_wait_from_cycle_start_no_backlog_witness :
    (Scheduler.cycleStep 60 (1/10) 65 ⟨0, 65⟩ = ⟨65, 65 + 65⟩) ∧
    ((60 : ℚ) ≤ (Scheduler.cycleStep 60 (1/10) 5 ⟨0, 0⟩).start - 0 ∧
      (Scheduler.cycleStep 60 (1/10) 5 ⟨0, 0⟩).start - 1/10 - 0 < 60) ∧
    ((Scheduler.cycleStep 60 (1/10) 61 ⟨0, 65⟩).start = 65 ∧
      (Scheduler.cycleStep 60 (1/10) 62 (Scheduler.cycleStep 60 (1/10) 61 ⟨0, 65⟩)).start
        = 65 + 61 ∧
      (Scheduler.cycleStep 60 (1/10) 63 (Scheduler.cycleStep 60 (1/10) 62
        (Scheduler.cycleStep 60 (1/10) 61 ⟨0, 65⟩))).start = 65 + 61 + 62) := by
  have h1 := C4_wait_from_cycle_start_no_backlog 60 (1/10) (by norm_num) ⟨0, 65⟩ 65
  have h2 := C4_wait_from_cycle_start_no_backlog 60 (1/10) (by norm_num) ⟨0, 0⟩ 5
  have h3 := C4_wait_from_cycle_start_no_backlog 60 (1/10) (by norm_num) ⟨0, 65⟩ 61
  exact ⟨(h1.1 (by norm_num)).2, h2.2.1 (by norm_num),
    h3.2.2 61 62 63 (by norm_num) (by norm_num) (by norm_num) (by norm_num)⟩

/-- C5 counterexample: the line `C.1.1*100(5)` has the claimed form
`[<g>-<g>:]<code>[*<id>](<value>)` with code `C.1.1`, tag `*100` and value
`5`, yet `Processor.extract` does not store `C.1.1 → 5`: the regex accepts
only the literal tag `*255`, so the line is skipped entirely. -/
theorem C5_claimed_pattern_counterexample :
    Processor.extract "C.1.1*100(5)" "C.1.1" = none ∧
    (none : Option String) ≠ some "5" := by
  constructor
  · decide
  · decide

/-- C5, amended: the tag stripped by the pattern is specifically the
literal `*255` (not an arbitrary `*<id>`), and the code is exactly three
dot-separated segments with the last a digit string.  For every
whitespace-delimited line `[<g>-<g>:]<s1>.<s2>.<s3>[*255](<value>)` —
optional digit-dash-digit group prefix, `s1` and `s2` nonempty and free of
whitespace, `'.'` and `':'`, `s3` a nonempty digit string, value nonempty
and free of whitespace, `'.'` and `')'` — the pattern matches with code
`<s1>.<s2>.<s3>` and that value, and extraction stores code → value; every
line the pattern does not match is silently skipped, leaving the rest of
the map unaffected. -/
theorem C5_line_pattern (pre s1 s2 s3 tag v : List Char)
    (hpre : pre = [] ∨ ∃ g1 g2, (g1.isDigit = true ∧ g2.isDigit = true) ∧
      pre = [g1, '-', g2, ':'])
    (htag : tag = [] ∨ tag = ['*', '2', '5', '5'])
    (h1e : s1 ≠ []) (h1 : ∀ c ∈ s1, Processor.isPySpace c = false ∧ c ≠ '.' ∧ c ≠ ':')
    (h2e : s2 ≠ []) (h2 : ∀ c ∈ s2, Processor.isPySpace c = false ∧ c ≠ '.' ∧ c ≠ ':')
    (h3e : s3 ≠ []) (h3 : ∀ c ∈ s3, c.isDigit = true)
    (hve : v ≠ []) (hv : ∀ c ∈ v, Processor.isPySpace c = false ∧ c ≠ '.' ∧ c ≠ ')') :
    Processor.matchLine
        (pre ++ (s1 ++ '.' :: (s2 ++ '.' :: (s3 ++ (tag ++ '(' :: (v ++ [')'])))))) =
      some (Processor.mkCode s1 s2 s3, String.mk v) ∧
    (∀ ts, Processor.extractTokens
        (ts ++ [pre ++ (s1 ++ '.' :: (s2 ++ '.' :: (s3 ++ (tag ++ '(' :: (v ++ [')'])))))])
        (Processor.mkCode s1 s2 s3) = some (String.mk v)) ∧
    (∀ t ts, Processor.matchLine t = none →
      Processor.extractTokens (ts ++ [t]) = Processor.extractTokens ts) := by
  have hcode : Processor.matchCode
      (s1 ++ '.' :: (s2 ++ '.' :: (s3 ++ (tag ++ '(' :: (v ++ [')']))))) =
      some (Processor.mkCode s1 s2 s3, String.mk v) :=
    Processor.matchCode_good s1 s2 s3 tag v h1e
      (fun c hc => ⟨(h1 c hc).1, (h1 c hc).2.1⟩) h2e
      (fun c hc => ⟨(h2 c hc).1, (h2 c hc).2.1⟩) h3e h3 htag hve hv
  have hline : Processor.matchLine
      (pre ++ (s1 ++ '.' :: (s2 ++ '.' :: (s3 ++ (tag ++ '(' :: (v ++ [')'])))))) =
      some (Processor.mkCode s1 s2 s3, String.mk v) := by
    rcases hpre with rfl | ⟨g1, g2, ⟨hg1, hg2⟩, rfl⟩
    · rw [List.nil_append]
      rw [Processor.core_matchLine s1 s2 _ h1e h2e (fun c hc => (h1 c hc).2.2)
          (fun c hc => (h2 c hc).2.2)]
      exact hcode
    · simp only [List.cons_append, List.nil_append]
      exact Processor.matchLine_with_pre g1 g2 hg1 hg2 _ _ hcode
  refine ⟨hline, ?_, ?_⟩
  · intro ts
    rw [Processor.extractTokens_append]
    show Processor.update (Processor.extractTokens ts) _ _ = _
    exact Processor.update_store _ _ _ _ hline
  · intro t ts h
    rw [Processor.extractTokens_append]
    show Processor.update (Processor.extractTokens ts) t = _
    rw [Processor.update_skip _ t h]

theorem C5_line_pattern_witness :
    Processor.matchLine "1-0:1.8.1*255(5)".data = some ("1.8.1", "5") ∧
    Processor.extractTokens ([] ++ ["1-0:1.8.1*255(5)".data]) "1.8.1" = some "5" ∧
    Processor.extractTokens ([] ++ ["C.1.1*100(5)".data]) =
      Processor.extractTokens [] := by
  have h := C5_line_pattern ['1', '-', '0', ':'] ['1'] ['8'] ['1']
    ['*', '2', '5', '5'] ['5']
    (Or.inr ⟨'1', '0', ⟨by decide, by decide⟩, rfl⟩) (Or.inr rfl)
    (by decide) (by decide) (by decide) (by decide) (by decide) (by decide)
    (by decide) (by decide)
  exact ⟨h.1, h.2.1 [], h.2.2 "C.1.1*100(5)".data [] (by decide)⟩

/-- C6: after the greeting, `MT174.read` fails with the protocol errors of
the identification phase exactly as claimed: empty reply → empty-reply
error; first character not `'/'` → no-identification error; shorter than 7
characters (with the `'/'` sentinel) → too-short error; and for a reply
satisfying all three conditions it proceeds past the identification to the
acknowledgment and data phase (`postIdent`) without failing. -/
theorem C6_identification_checks (ident : List Nat) (bytes : List (Option Nat)) :
    (ident = [] → MT174.read ident bytes = Except.error MT174.Err.emptyIdent) ∧
    (∀ c cs, ident = c :: cs → c ≠ 47 →
      MT174.read ident bytes = Except.error MT174.Err.noIdentification) ∧
    (ident.head? = some 47 → ident.length < 7 →
      MT174.read ident bytes = Except.error MT174.Err.identTooShort) ∧
    (MT174.identOK ident → MT174.read ident bytes = MT174.postIdent bytes) := by
  refine ⟨?_, ?_, ?_, fun h => MT174.read_identOK ident bytes h⟩
  · rintro rfl
    rfl
  · rintro c cs rfl hc
    rw [MT174.read, if_neg (by simp), if_pos (by simp [hc])]
  · intro h47 hlen
    have hne : ident.length ≠ 0 := by
      cases ident with
      | nil => simp at h47
      | cons a l => simp
    rw [MT174.read, if_neg hne, if_neg (by simp [h47]), if_pos hlen]

theorem C6_identification_checks_witness :
    MT174.read [] [] = Except.error MT174.Err.emptyIdent ∧
    MT174.read [65, 66, 67, 68, 69, 70, 71] [] =
      Except.error MT174.Err.noIdentification ∧
    MT174.read [47, 65] [] = Except.error MT174.Err.identTooShort ∧
    MT174.read [47, 73, 83, 75, 53, 77, 84] [some 9] = Except.ok [] := by
  refine ⟨(C6_identification_checks [] []).1 rfl, ?_, ?_, ?_⟩
  · exact (C6_identification_checks [65, 66, 67, 68, 69, 70, 71] []).2.1
      65 [66, 67, 68, 69, 70, 71] rfl (by decide)
  · exact (C6_identification_checks [47, 65] []).2.2.1 (by decide) (by decide)
  · exact (C6_identification_checks [47, 73, 83, 75, 53, 77, 84] [some 9]).2.2.2 (by decide)

/-- C7: with a valid identification reply, whenever the first byte read
after the acknowledgment is not the STX start-of-block sentinel — be it a
zero-length read or any other byte — `MT174.read` does not fail: it
returns the empty data block. -/
theorem C7_missing_stx_returns_empty (ident : List Nat) (bytes : List (Option Nat))
    (hid : MT174.identOK ident)
    (hb : ∀ rest, bytes ≠ some MT174.STX :: rest) :
    MT174.read ident bytes = Except.ok [] := by
  rw [MT174.read_identOK ident bytes hid]
  cases bytes with
  | nil => rfl
  | cons o rest =>
    cases o with
    | none => rfl
    | some b =>
      rw [MT174.postIdent]
      rw [if_neg (fun hbs : b = MT174.STX => hb rest (by rw [hbs]))]

theorem C7_missing_stx_returns_empty_witness :
    MT174.read [47, 73, 83, 75, 53, 77, 84] [some 5, some 2, some 33] = Except.ok [] :=
  C7_missing_stx_returns_empty [47, 73, 83, 75, 53, 77, 84] [some 5, some 2, some 33]
    (by decide) (by intro rest h; injection h with h1 h2; exact absurd h1 (by decide))

/-- C10: the zero-length-read guard of `MT174.read` covers the data and
end-of-text phases but not the final read of the transmitted block-check
character.  A zero-length read while collecting the payload or the bytes
before ETX fails with the guarded truncated-frame error (`emptyData`), but
a trace whose zero-length read occurs exactly at the check-character
position fails with the unguarded `ord("")` type error instead — a
different failure from the declared truncated-frame error. -/
theorem C10_missing_guard_at_check_char (ident payload mid : List Nat)
    (hid : MT174.identOK ident)
    (hp : ∀ b ∈ payload, b ≠ MT174.EOB) (hm : ∀ b ∈ mid, b ≠ MT174.ETX) :
    MT174.read ident (some MT174.STX ::
        (payload.map some ++ some MT174.EOB :: (mid.map some ++ [some MT174.ETX]))) =
      Except.error MT174.Err.ordEmpty ∧
    MT174.Err.ordEmpty ≠ MT174.Err.emptyData ∧
    MT174.read ident (some MT174.STX :: (payload.map some ++ [none])) =
      Except.error MT174.Err.emptyData ∧
    MT174.read ident (some MT174.STX ::
        (payload.map some ++ some MT174.EOB :: (mid.map some ++ [none]))) =
      Except.error MT174.Err.emptyData := by
  refine ⟨?_, by decide, ?_, ?_⟩
  · rw [MT174.read_identOK ident _ hid, MT174.postIdent, if_pos rfl]
    rw [show mid.map some ++ [some MT174.ETX] = mid.map some ++ some MT174.ETX :: []
        from by simp]
    rw [MT174.loop1_start payload hp]
    rw [MT174.loop2_run mid hm MT174.EOB (MT174.xorList payload) [] (by decide)]
  · rw [MT174.read_identOK ident _ hid, MT174.postIdent, if_pos rfl]
    cases payload with
    | nil => rfl
    | cons a p =>
      rw [List.map_cons, List.cons_append, MT174.readBlock]
      rw [MT174.loop1_trunc p (fun c hc => hp c (List.mem_cons_of_mem a hc)) a 0 []
          (hp a (List.mem_cons_self a p))]
  · rw [MT174.read_identOK ident _ hid, MT174.postIdent, if_pos rfl]
    rw [MT174.loop1_start payload hp]
    rw [MT174.loop2_trunc mid hm MT174.EOB (MT174.xorList payload) (by decide)]

theorem C10_missing_guard_at_check_char_witness :
    MT174.read [47, 73, 83, 75, 53, 77, 84] (some MT174.STX ::
        ([65, 66].map some ++ some MT174.EOB :: ([13, 10].map some ++ [some MT174.ETX]))) =
      Except.error MT174.Err.ordEmpty ∧
    MT174.read [47, 73, 83, 75, 53, 77, 84]
        (some MT174.STX :: ([65, 66].map some ++ [none])) =
      Except.error MT174.Err.emptyData := by
  have h := C10_missing_guard_at_check_char [47, 73, 83, 75, 53, 77, 84] [65, 66] [13, 10]
    (by decide) (by decide) (by decide)
  exact ⟨h.1, h.2.2.1⟩

/-- C8: whenever a token of the data block matches the pattern with code
`c`, and no later token matches with the same code, `Processor.extract`
binds `c` to that token's value — so when the same measurement code appears
on several matching lines, the last occurrence wins and overwrites the
entries of all earlier ones. -/
theorem C8_duplicate_code_last_wins (s : String) (pre post : List (List Char))
    (t : List Char) (c v : String)
    (hs : Processor.pysplit s.data = pre ++ t :: post)
    (ht : Processor.matchLine t = some (c, v))
    (hpost : ∀ u ∈ post, ∀ w, Processor.matchLine u ≠ some (c, w)) :
    Processor.extract s c = some v := by
  rw [Processor.extract, hs]
  rw [show pre ++ t :: post = (pre ++ [t]) ++ post by simp]
  rw [Processor.extractTokens_append]
  rw [Processor.foldl_update_skip c post hpost]
  rw [Processor.extractTokens_append]
  show Processor.update (Processor.extractTokens pre) t c = some v
  exact Processor.update_store _ t c v ht

theorem C8_duplicate_code_last_wins_witness :
    Processor.extract "1.8.1(A) 1.8.1(B)" "1.8.1" = some "B" :=
  C8_duplicate_code_last_wins "1.8.1(A) 1.8.1(B)" ["1.8.1(A)".data] []
    "1.8.1(B)".data "1.8.1" "B" (by decide) (by decide)
    (by intro u hu; simp at hu)

/-- C9 counterexample: the claim quantifies over every data block
*containing* the line `1-0:1.8.1*255(0001798.478*kWh)`; in the block that
also contains the later matching line `1.8.1(X)`, extraction binds `1.8.1`
to `"X"`, not to `"0001798.478*kWh"`. -/
theorem C9_containing_block_counterexample :
    Processor.extract "1-0:1.8.1*255(0001798.478*kWh)\n1.8.1(X)" "1.8.1" = some "X" ∧
    (some "X" : Option String) ≠ some "0001798.478*kWh" := by
  constructor
  · decide
  · decide

/-- C9, amended: extraction of the line `1-0:1.8.1*255(0001798.478*kWh)`
yields code `1.8.1` → value `0001798.478*kWh` (group prefix and `*255` tag
stripped, unit suffix kept), and the binding survives in any data block in
which no later token rebinds code `1.8.1`. -/
theorem C9_sample_line_extraction (pre post : List (List Char))
    (hpost : ∀ u ∈ post, ∀ w, Processor.matchLine u ≠ some ("1.8.1", w)) :
    Processor.extract "1-0:1.8.1*255(0001798.478*kWh)" "1.8.1" =
      some "0001798.478*kWh" ∧
    Processor.extractTokens (pre ++ "1-0:1.8.1*255(0001798.478*kWh)".data :: post)
      "1.8.1" = some "0001798.478*kWh" := by
  constructor
  · decide
  · rw [show pre ++ "1-0:1.8.1*255(0001798.478*kWh)".data :: post
        = (pre ++ ["1-0:1.8.1*255(0001798.478*kWh)".data]) ++ post by simp]
    rw [Processor.extractTokens_append]
    rw [Processor.foldl_update_skip _ post hpost]
    rw [Processor.extractTokens_append]
    show Processor.update (Processor.extractTokens pre)
      "1-0:1.8.1*255(0001798.478*kWh)".data "1.8.1" = some "0001798.478*kWh"
    exact Processor.update_store _ "1-0:1.8.1*255(0001798.478*kWh)".data "1.8.1"
      "0001798.478*kWh" (by decide)

theorem C9_sample_line_extraction_witness :
    Processor.extract "1-0:1.8.1*255(0001798.478*kWh)" "1.8.1" =
      some "0001798.478*kWh" ∧
    Processor.extractTokens ([] ++ "1-0:1.8.1*255(0001798.478*kWh)".data :: ["junk".data])
      "1.8.1" = some "0001798.478*kWh" :=
  C9_sample_line_extraction [] ["junk".data] (by
    intro u hu w hmatch
    simp only [List.mem_singleton] at hu
    subst hu
    rw [show Processor.matchLine "junk".data = none from by decide] at hmatch
    exact Option.noConfusion hmatch)
